import Mathlib

/-!
Shallow embedding of the ClientHunter lead-acquisition core
(`src/utils/leadUtils.js` and the pagination loop of
`src/hooks/usePlacesSearch.js`), together with proofs about the
properties its design document states.

Strings are modelled as `List Char`.  JavaScript string falsiness
(`undefined`, `null`, `''` all falsy) is modelled by `Option (List Char)`
collapsed with `strVal`; absent numbers are `Option Nat` / `Option ℚ`,
and every JS comparison `undefined > x` is `false`, as in the engine.
-/

/-! ### Character classes

`isWsChar` models the JavaScript regex class `\s` (the common whitespace
code points; the same predicate is used both where the code strips
whitespace and inside the one pattern that mentions `\s`, so the two
sites agree exactly as they do in the source). -/

def wsChars : List Char := [' ', '\t', '\n', '\r', '\x0b', '\x0c', '\u00A0']

def isWsChar (c : Char) : Bool := decide (c ∈ wsChars)

/-- The character class `[\s\-\(\)]` of the cleaning regex in
`isValidSriLankanMobile`: whitespace, dashes and parentheses. -/
def strippedChars : List Char := wsChars ++ ['-', '(', ')']

def isStrippedChar (c : Char) : Bool := decide (c ∈ strippedChars)

/-- Characters kept by `phone.replace(/[^\d+]/g, '')` in
`formatPhoneForWhatsApp`. -/
def keepDigitPlus (c : Char) : Bool := c.isDigit || c == '+'

/-! ### Mobile-number patterns (`isValidSriLankanMobile`) -/

/-- An anchored run of exactly `n` digits (regex `\d{n}$`). -/
def digitRun (l : List Char) (n : Nat) : Bool :=
  l.length == n && l.all Char.isDigit

/-- Exactly `k` digits are available at the front of `l` (regex `\d{k}`
in the middle of a pattern). -/
def digitsTake (l : List Char) (k : Nat) : Bool :=
  (l.take k).length == k && (l.take k).all Char.isDigit

/-- Regex `/^07\d{8}$/`. -/
def pat1 (l : List Char) : Bool :=
  l.take 2 == ['0', '7'] && digitRun (l.drop 2) 8

/-- Regex `/^\+947\d{8}$/`. -/
def pat2 (l : List Char) : Bool :=
  l.take 4 == ['+', '9', '4', '7'] && digitRun (l.drop 4) 8

/-- Regex `/^947\d{8}$/`. -/
def pat3 (l : List Char) : Bool :=
  l.take 3 == ['9', '4', '7'] && digitRun (l.drop 3) 8

/-- Consume an optional single whitespace character (regex `\s?`).  In
the only pattern using it, `\s?` is followed by `\d`, and whitespace and
digits are disjoint, so the regex match is deterministic: consume a
leading whitespace character when present, otherwise consume nothing. -/
def chompWs (l : List Char) : List Char :=
  if (l.take 1).any isWsChar then l.drop 1 else l

/-- Regex `/^07\d{1}\s?\d{3}\s?\d{4}$/`. -/
def pat4 (l : List Char) : Bool :=
  l.take 2 == ['0', '7'] &&
  digitsTake (l.drop 2) 1 &&
  digitsTake (chompWs ((l.drop 2).drop 1)) 3 &&
  digitRun (chompWs ((chompWs ((l.drop 2).drop 1)).drop 3)) 4

/-- `isValidSriLankanMobile` from `src/utils/leadUtils.js`: falsy input
is rejected; otherwise spaces, dashes and parentheses are removed and
the cleaned string is tested against the four mobile patterns. -/
def isValidSriLankanMobile (phone : List Char) : Bool :=
  if phone.isEmpty then false
  else
    let clean := phone.filter (fun c => !isStrippedChar c)
    pat1 clean || pat2 clean || pat3 clean || pat4 clean

/-! ### `formatPhoneForWhatsApp` -/

/-- `cleanPhone.replace(/^\+/, '')`: drop a single leading plus. -/
def dropLeadPlus (l : List Char) : List Char :=
  if l.take 1 == ['+'] then l.drop 1 else l

/-- `if (cleanPhone.startsWith('0')) cleanPhone = '94' + cleanPhone.substring(1)`. -/
def zeroToCountry (l : List Char) : List Char :=
  if l.take 1 == ['0'] then '9' :: '4' :: l.drop 1 else l

/-- `formatPhoneForWhatsApp` from `src/utils/leadUtils.js`: falsy input
gives `''`; otherwise keep only digits and plus signs, drop one leading
plus, replace a leading `0` by `94`, and prepend `94` when the string
still does not start with `94` (`startsWith` on a string shorter than 2
characters is false, hence the `take 2` test). -/
def formatPhoneForWhatsApp (phone : List Char) : List Char :=
  if phone.isEmpty then []
  else
    let c := zeroToCountry (dropLeadPlus (phone.filter keepDigitPlus))
    if c.take 2 == ['9', '4'] then c else '9' :: '4' :: c

/-! ### `formatPhoneForDisplay` -/

/-- The grouped form `clean.slice(0, 3) + ' ' + clean.slice(3, 6) + ' ' +
clean.slice(6)` of `formatPhoneForDisplay`. -/
def grouped (d : List Char) : List Char :=
  d.take 3 ++ ' ' :: (d.drop 3).take 3 ++ ' ' :: d.drop 6

/-- `formatPhoneForDisplay` from `src/utils/leadUtils.js`: falsy input
gives the placeholder `'No phone'`; a 10-digit cleaned string starting
with `0` is grouped as `XXX XXX XXXX`; anything else is returned
unchanged. -/
def formatPhoneForDisplay (phone : List Char) : List Char :=
  if phone.isEmpty then ("No phone".toList)
  else if (phone.filter Char.isDigit).length == 10 &&
      (phone.filter Char.isDigit).take 1 == ['0'] then
    grouped (phone.filter Char.isDigit)
  else phone

/-- The shape `DDD DDD DDDD` (three digits, space, three digits, space,
four digits). -/
def groupedShape (l : List Char) : Bool :=
  l.length == 12 &&
  (l.take 3).all Char.isDigit &&
  (l.drop 3).take 1 == [' '] &&
  ((l.drop 4).take 3).all Char.isDigit &&
  (l.drop 7).take 1 == [' '] &&
  (l.drop 8).all Char.isDigit

/-! ### `calculateLeadScore` -/

inductive LeadScore where
  | hot
  | warm
  | cold
deriving DecidableEq

/-- JavaScript `x > k` for an optionally-absent number: `undefined > k`
is `false`. -/
def gtNat : Option Nat → Nat → Bool
  | none, _ => false
  | some n, k => k < n

/-- JavaScript `x > k` for an optionally-absent rating (numbers are
modelled as rationals): `undefined > k` is `false`. -/
def gtRat : Option ℚ → ℚ → Bool
  | none, _ => false
  | some r, k => decide (k < r)

/-- `calculateLeadScore` from `src/utils/leadUtils.js`; the rules are
tried in source order, first match wins. -/
def calculateLeadScore (ratingCount : Option Nat) (rating : Option ℚ) : LeadScore :=
  if gtNat ratingCount 100 && gtRat rating 4 then .hot
  else if gtNat ratingCount 50 then .warm
  else .cold

/-! ### Place records and `filterSuitableLeads` -/

/-- A detailed place record, with the fields produced by
`getPlaceDetails` in `src/hooks/usePlacesSearch.js`.  Optionally absent
strings are `Option (List Char)`. -/
structure Place where
  id : List Char
  placeId : List Char
  displayName : List Char
  rating : Option ℚ
  userRatingCount : Option Nat
  nationalPhoneNumber : Option (List Char)
  internationalPhoneNumber : Option (List Char)
  websiteUri : Option (List Char)
  businessStatus : Option (List Char)
  photos : List (List Char)
  types : List (List Char)
  formattedAddress : List Char
  location : Option (ℚ × ℚ)

/-- Collapse an optionally-absent string to its value, with absent
becoming `''` (JavaScript `undefined`/`null` and `''` are equally
falsy, and every use below only tests truthiness or feeds functions
that map all falsy values to the same result). -/
def strVal : Option (List Char) → List Char
  | none => []
  | some s => s

/-- JavaScript truthiness of an optionally-absent string. -/
def truthy (s : Option (List Char)) : Bool := strVal s != []

/-- `place.userRatingCount || 0` (both `undefined` and `0` give `0`). -/
def ratingCountOrZero (p : Place) : Nat :=
  match p.userRatingCount with
  | none => 0
  | some n => n

def operationalStr : List Char := "OPERATIONAL".toList

/-- `place.businessStatus && place.businessStatus !== 'OPERATIONAL'`. -/
def statusExcluded (p : Place) : Bool :=
  match p.businessStatus with
  | none => false
  | some s => s != [] && s != operationalStr

/-- `place.nationalPhoneNumber || place.internationalPhoneNumber || ''`:
the national string when truthy, else the international one, else `''`. -/
def selPhone (p : Place) : List Char :=
  if strVal p.nationalPhoneNumber != [] then strVal p.nationalPhoneNumber
  else strVal p.internationalPhoneNumber

/-- The filter predicate of `filterSuitableLeads`: at least 10 reviews,
no website, operational (or unspecified) status, and a valid mobile
number in the preferred phone string. -/
def suitablePred (p : Place) : Bool :=
  if ratingCountOrZero p < 10 then false
  else if truthy p.websiteUri then false
  else if statusExcluded p then false
  else isValidSriLankanMobile (selPhone p)

/-- The enriched record `{...place, leadScore, formattedWhatsapp}`.  The
source passes `place.nationalPhoneNumber || place.internationalPhoneNumber`
(without the final `|| ''`) to `formatPhoneForWhatsApp`; since that
function maps every falsy argument to `''`, using `selPhone` here is
the same value. -/
structure QualifiedLead where
  place : Place
  leadScore : LeadScore
  formattedWhatsapp : List Char

def enrich (p : Place) : QualifiedLead :=
  { place := p
    leadScore := calculateLeadScore p.userRatingCount p.rating
    formattedWhatsapp := formatPhoneForWhatsApp (selPhone p) }

/-- Sort key of `.sort((a, b) => b.userRatingCount - a.userRatingCount)`
(every sorted element passed the review-count gate, so the field is a
present number; `ratingCountOrZero` agrees with it there). -/
def ratingKey (q : QualifiedLead) : Nat := ratingCountOrZero q.place

/-- Insertion step of a stable descending sort by `ratingKey`: the new
element `x` (earlier in the input) goes before the first element with a
key not larger than its own, so equal keys keep input order.
`Array.prototype.sort` is required to be stable (ES2019), and with the
comparator above its result is exactly this descending stable sort. -/
def insertByCount (x : QualifiedLead) : List QualifiedLead → List QualifiedLead
  | [] => [x]
  | y :: ys =>
      if ratingKey y ≤ ratingKey x then x :: y :: ys
      else y :: insertByCount x ys

def sortByCountDesc (l : List QualifiedLead) : List QualifiedLead :=
  l.foldr insertByCount []

/-- Body of `filterSuitableLeads` for an actual array argument:
`.filter(...)` then `.map(...)` then the stable descending sort. -/
def filterSuitableLeadsList (places : List Place) : List QualifiedLead :=
  sortByCountDesc ((places.filter suitablePred).map enrich)

/-- The dynamically-typed argument of `filterSuitableLeads`: `null`,
`undefined`, some other non-array value, or an array of places. -/
inductive PlacesArg where
  | jsNull
  | jsUndefined
  | nonArray
  | array (places : List Place)

/-- `filterSuitableLeads` from `src/utils/leadUtils.js`, including its
guard `if (!places || !Array.isArray(places)) return []`. -/
def filterSuitableLeads : PlacesArg → List QualifiedLead
  | .array places => filterSuitableLeadsList places
  | _ => []

/-! ### Pagination (`fetchAllPages` in `src/hooks/usePlacesSearch.js`) -/

inductive PageStatus where
  | ok
  | zeroResults
  | other (code : List Char)
deriving DecidableEq

/-- One callback invocation from the places service: a status, the
page's results, and whether `pagination && pagination.hasNextPage`. -/
structure PageResponse (α : Type) where
  status : PageStatus
  results : List α
  hasNextPage : Bool
deriving DecidableEq

/-- Outcome of the promise in `fetchAllPages`.  `noCallback` is the
model of a service that stops invoking the callback while the loop
still expects a page (the promise would stay pending forever). -/
inductive FetchOutcome (α : Type) where
  | resolved (results : List α)
  | rejected (code : List Char)
  | noCallback
deriving DecidableEq

/-- The `handleResults` loop of `fetchAllPages`, driven by the list of
successive service responses: an OK page appends its results and either
continues (after the 2-second delay, not modelled) or resolves; a
ZERO_RESULTS page resolves with what was accumulated so far; any other
status rejects with that status code. -/
def fetchPagesLoop {α : Type} : List (PageResponse α) → List α → FetchOutcome α
  | [], _ => .noCallback
  | page :: rest, acc =>
    match page.status with
    | .ok =>
        if page.hasNextPage then fetchPagesLoop rest (acc ++ page.results)
        else .resolved (acc ++ page.results)
    | .zeroResults => .resolved acc
    | .other code => .rejected code

def fetchAllPages {α : Type} (responses : List (PageResponse α)) : FetchOutcome α :=
  fetchPagesLoop responses []

/-! ### Helper lemmas: the stable descending sort -/

lemma mem_insertByCount {z x : QualifiedLead} :
    ∀ {l : List QualifiedLead}, z ∈ insertByCount x l ↔ z = x ∨ z ∈ l := by
  intro l
  induction l with
  | nil => simp [insertByCount]
  | cons y ys ih =>
      unfold insertByCount
      split
      · simp
      · simp [ih]
        tauto

lemma mem_sortByCountDesc {z : QualifiedLead} :
    ∀ {l : List QualifiedLead}, z ∈ sortByCountDesc l ↔ z ∈ l := by
  intro l
  induction l with
  | nil => simp [sortByCountDesc]
  | cons y ys ih =>
      show z ∈ insertByCount y (sortByCountDesc ys) ↔ _
      rw [mem_insertByCount]
      simp [ih]

lemma sorted_insertByCount {x : QualifiedLead} :
    ∀ {l : List QualifiedLead},
      List.Pairwise (fun a b => ratingKey b ≤ ratingKey a) l →
      List.Pairwise (fun a b => ratingKey b ≤ ratingKey a) (insertByCount x l) := by
  intro l
  induction l with
  | nil => intro _; simp [insertByCount]
  | cons y ys ih =>
      intro h
      rw [List.pairwise_cons] at h
      unfold insertByCount
      split
      · rename_i hyx
        refine List.pairwise_cons.2 ⟨?_, List.pairwise_cons.2 ⟨h.1, h.2⟩⟩
        intro z hz
        rcases List.mem_cons.1 hz with rfl | hz
        · exact hyx
        · exact le_trans (h.1 z hz) hyx
      · rename_i hyx
        push_neg at hyx
        refine List.pairwise_cons.2 ⟨?_, ih h.2⟩
        intro z hz
        rcases mem_insertByCount.1 hz with rfl | hz
        · exact le_of_lt hyx
        · exact h.1 z hz

lemma sorted_sortByCountDesc :
    ∀ (l : List QualifiedLead),
      List.Pairwise (fun a b => ratingKey b ≤ ratingKey a) (sortByCountDesc l)
  | [] => by simp [sortByCountDesc]
  | x :: l => by
      show List.Pairwise _ (insertByCount x (sortByCountDesc l))
      exact sorted_insertByCount (sorted_sortByCountDesc l)

lemma filter_insertByCount (x : QualifiedLead) (c : Nat) :
    ∀ (l : List QualifiedLead),
      (insertByCount x l).filter (fun q => ratingKey q == c)
        = if ratingKey x = c then x :: l.filter (fun q => ratingKey q == c)
          else l.filter (fun q => ratingKey q == c) := by
  intro l
  induction l with
  | nil =>
      simp only [insertByCount, List.filter_cons, List.filter_nil]
      by_cases hx : ratingKey x = c <;> simp [hx]
  | cons y ys ih =>
      unfold insertByCount
      split
      · simp only [List.filter_cons]
        by_cases hx : ratingKey x = c <;> by_cases hy : ratingKey y = c <;>
          simp [hx, hy]
      · rename_i hyx
        push_neg at hyx
        rw [List.filter_cons, List.filter_cons, ih]
        by_cases hx : ratingKey x = c
        · have hy : (ratingKey y == c) = false := by
            rw [beq_eq_false_iff_ne]
            omega
          simp [hx, hy]
        · simp [hx]

lemma filter_sortByCountDesc (c : Nat) :
    ∀ (l : List QualifiedLead),
      (sortByCountDesc l).filter (fun q => ratingKey q == c)
        = l.filter (fun q => ratingKey q == c)
  | [] => rfl
  | x :: l => by
      show (insertByCount x (sortByCountDesc l)).filter _ = _
      rw [filter_insertByCount, filter_sortByCountDesc c l, List.filter_cons]
      by_cases hx : ratingKey x = c <;> simp [hx]

/-! ### Helper lemmas: the filter predicate -/

lemma suitablePred_iff {p : Place} :
    suitablePred p = true ↔
      10 ≤ ratingCountOrZero p ∧ truthy p.websiteUri = false ∧
        statusExcluded p = false ∧ isValidSriLankanMobile (selPhone p) = true := by
  unfold suitablePred
  split_ifs with h1 h2 h3
  · simp only [false_iff]
    intro h
    omega
  · simp [h2]
  · simp [h3]
  · simp only [Bool.not_eq_true] at h2 h3
    simp [h2, h3]
    omega

lemma mem_filterSuitableLeadsList {q : QualifiedLead} {places : List Place} :
    q ∈ filterSuitableLeadsList places ↔
      ∃ p ∈ places, suitablePred p = true ∧ q = enrich p := by
  unfold filterSuitableLeadsList
  rw [mem_sortByCountDesc]
  simp only [List.mem_map, List.mem_filter]
  constructor
  · rintro ⟨p, ⟨hp, hs⟩, rfl⟩
    exact ⟨p, hp, hs, rfl⟩
  · rintro ⟨p, hp, hs, rfl⟩
    exact ⟨p, ⟨hp, hs⟩, rfl⟩

/-! ### Helper lemmas: characters and patterns -/

lemma stripped_not_kept (c : Char) (h : isStrippedChar c = true) :
    keepDigitPlus c = false := by
  simp only [isStrippedChar, strippedChars, wsChars, List.mem_append, List.mem_cons,
    List.not_mem_nil, or_false, decide_eq_true_eq] at h
  rcases h with (h | h | h | h | h | h | h) | h | h | h <;> subst h <;> decide

lemma not_stripped_of_ws (c : Char) (h : isStrippedChar c = false) :
    isWsChar c = false := by
  by_contra hw
  rw [Bool.not_eq_false] at hw
  simp only [isWsChar, decide_eq_true_eq] at hw
  simp only [isStrippedChar, strippedChars] at h
  rw [decide_eq_false_iff_not] at h
  rw [List.mem_append] at h
  exact h (Or.inl hw)

lemma no_ws_in_clean {phone : List Char} :
    ∀ c ∈ phone.filter (fun c => !isStrippedChar c), isWsChar c = false := by
  intro c hc
  rw [List.mem_filter] at hc
  have h2 := hc.2
  rw [Bool.not_eq_true'] at h2
  exact not_stripped_of_ws c h2

lemma chompWs_no_ws {l : List Char} (h : ∀ c ∈ l, isWsChar c = false) :
    chompWs l = l := by
  unfold chompWs
  rcases l with _ | ⟨c, r⟩
  · rfl
  · have hc := h c (by simp)
    simp [hc]

lemma filters_agree {phone : List Char}
    (hkeep : ∀ c ∈ phone.filter (fun c => !isStrippedChar c), keepDigitPlus c = true) :
    phone.filter keepDigitPlus = phone.filter (fun c => !isStrippedChar c) := by
  apply List.filter_congr
  intro c hc
  by_cases hs : isStrippedChar c = true
  · rw [stripped_not_kept c hs, hs]
    rfl
  · rw [Bool.not_eq_true] at hs
    rw [hkeep c (List.mem_filter.2 ⟨hc, by rw [hs]; rfl⟩), hs]
    rfl

lemma pat4_to_pat1 {l : List Char} (hws : ∀ c ∈ l, isWsChar c = false)
    (h : pat4 l = true) : pat1 l = true := by
  unfold pat4 at h
  have hu : chompWs ((l.drop 2).drop 1) = (l.drop 2).drop 1 :=
    chompWs_no_ws (fun c hc => hws c (List.mem_of_mem_drop (List.mem_of_mem_drop hc)))
  rw [hu] at h
  have hv : chompWs (((l.drop 2).drop 1).drop 3) = ((l.drop 2).drop 1).drop 3 :=
    chompWs_no_ws (fun c hc =>
      hws c (List.mem_of_mem_drop (List.mem_of_mem_drop (List.mem_of_mem_drop hc))))
  rw [hv] at h
  simp only [Bool.and_eq_true, digitsTake, digitRun, beq_iff_eq] at h
  obtain ⟨⟨⟨h07, h1len, h1dig⟩, h3len, h3dig⟩, h4len, h4dig⟩ := h
  have et : l.drop 2 = (l.drop 2).take 1 ++ ((l.drop 2).drop 1) :=
    (List.take_append_drop 1 (l.drop 2)).symm
  have e2 : (l.drop 2).drop 1
      = ((l.drop 2).drop 1).take 3 ++ (((l.drop 2).drop 1).drop 3) :=
    (List.take_append_drop 3 ((l.drop 2).drop 1)).symm
  simp only [pat1, digitRun, Bool.and_eq_true, beq_iff_eq]
  refine ⟨by simpa using h07, ?_, ?_⟩
  · rw [et, List.length_append, h1len, e2, List.length_append, h3len, h4len]
  · rw [et, List.all_append, h1dig, e2, List.all_append, h3dig, h4dig]
    rfl

lemma valid_shapes {phone : List Char} (h : isValidSriLankanMobile phone = true) :
    ∃ d : List Char, d.length = 8 ∧ d.all Char.isDigit = true ∧
      (phone.filter keepDigitPlus = '0' :: '7' :: d ∨
       phone.filter keepDigitPlus = '+' :: '9' :: '4' :: '7' :: d ∨
       phone.filter keepDigitPlus = '9' :: '4' :: '7' :: d) := by
  unfold isValidSriLankanMobile at h
  by_cases he : phone.isEmpty = true
  · rw [if_pos he] at h
    exact absurd h (by simp)
  rw [if_neg he] at h
  have hws : ∀ c ∈ phone.filter (fun c => !isStrippedChar c), isWsChar c = false :=
    no_ws_in_clean
  have hpat : pat1 (phone.filter (fun c => !isStrippedChar c)) = true ∨
      pat2 (phone.filter (fun c => !isStrippedChar c)) = true ∨
      pat3 (phone.filter (fun c => !isStrippedChar c)) = true := by
    rcases (by simpa only [Bool.or_eq_true] using h :
        ((_ ∨ _) ∨ _) ∨ pat4 (phone.filter (fun c => !isStrippedChar c)) = true) with
      ((h1 | h2) | h3) | h4
    · exact .inl h1
    · exact .inr (.inl h2)
    · exact .inr (.inr h3)
    · exact .inl (pat4_to_pat1 hws h4)
  set v := phone.filter (fun c => !isStrippedChar c) with hvdef
  rcases hpat with h1 | h2 | h3
  · simp only [pat1, digitRun, Bool.and_eq_true, beq_iff_eq] at h1
    obtain ⟨hA, hlen, hdig⟩ := h1
    have hvshape : v = '0' :: '7' :: v.drop 2 := by
      conv_lhs => rw [← List.take_append_drop 2 v]
      rw [hA]
      rfl
    refine ⟨v.drop 2, hlen, hdig, .inl ?_⟩
    rw [filters_agree ?_]
    · exact hvshape
    · intro c hc
      rw [← hvdef, hvshape] at hc
      rcases List.mem_cons.1 hc with rfl | hc
      · decide
      rcases List.mem_cons.1 hc with rfl | hc
      · decide
      have := (List.all_eq_true.1 hdig) c hc
      simp only [keepDigitPlus, Bool.or_eq_true]
      exact .inl this
  · simp only [pat2, digitRun, Bool.and_eq_true, beq_iff_eq] at h2
    obtain ⟨hA, hlen, hdig⟩ := h2
    have hvshape : v = '+' :: '9' :: '4' :: '7' :: v.drop 4 := by
      conv_lhs => rw [← List.take_append_drop 4 v]
      rw [hA]
      rfl
    refine ⟨v.drop 4, hlen, hdig, .inr (.inl ?_)⟩
    rw [filters_agree ?_]
    · exact hvshape
    · intro c hc
      rw [← hvdef, hvshape] at hc
      rcases List.mem_cons.1 hc with rfl | hc
      · decide
      rcases List.mem_cons.1 hc with rfl | hc
      · decide
      rcases List.mem_cons.1 hc with rfl | hc
      · decide
      rcases List.mem_cons.1 hc with rfl | hc
      · decide
      have := (List.all_eq_true.1 hdig) c hc
      simp only [keepDigitPlus, Bool.or_eq_true]
      exact .inl this
  · simp only [pat3, digitRun, Bool.and_eq_true, beq_iff_eq] at h3
    obtain ⟨hA, hlen, hdig⟩ := h3
    have hvshape : v = '9' :: '4' :: '7' :: v.drop 3 := by
      conv_lhs => rw [← List.take_append_drop 3 v]
      rw [hA]
      rfl
    refine ⟨v.drop 3, hlen, hdig, .inr (.inr ?_)⟩
    rw [filters_agree ?_]
    · exact hvshape
    · intro c hc
      rw [← hvdef, hvshape] at hc
      rcases List.mem_cons.1 hc with rfl | hc
      · decide
      rcases List.mem_cons.1 hc with rfl | hc
      · decide
      rcases List.mem_cons.1 hc with rfl | hc
      · decide
      have := (List.all_eq_true.1 hdig) c hc
      simp only [keepDigitPlus, Bool.or_eq_true]
      exact .inl this

lemma valid_ne_nil {l : List Char} (h : isValidSriLankanMobile l = true) : l ≠ [] := by
  intro h0
  subst h0
  simp [isValidSriLankanMobile] at h

lemma isEmpty_false_of_ne_nil {l : List Char} (h : l ≠ []) : l.isEmpty = false := by
  cases l with
  | nil => exact absurd rfl h
  | cons a t => rfl

lemma format_ne_nil {l : List Char} (h : l ≠ []) : formatPhoneForWhatsApp l ≠ [] := by
  unfold formatPhoneForWhatsApp
  rw [isEmpty_false_of_ne_nil h]
  simp only [Bool.false_eq_true, if_false]
  split
  · rename_i hc
    intro h0
    rw [h0] at hc
    simp at hc
  · simp

/-! ### Theorems for the claims -/

/-- C6: every phone string accepted by `isValidSriLankanMobile` is
turned by `formatPhoneForWhatsApp` into a string of exactly 11 digits
starting with the country code `94`. -/
theorem valid_formats_to_11_digits (phone : List Char)
    (h : isValidSriLankanMobile phone = true) :
    (formatPhoneForWhatsApp phone).length = 11 ∧
    (formatPhoneForWhatsApp phone).take 2 = ['9', '4'] ∧
    (formatPhoneForWhatsApp phone).all Char.isDigit = true := by
  obtain ⟨d, hlen, hdig, hcase⟩ := valid_shapes h
  have hie : phone.isEmpty = false := isEmpty_false_of_ne_nil (valid_ne_nil h)
  have hfmt : formatPhoneForWhatsApp phone = '9' :: '4' :: '7' :: d := by
    unfold formatPhoneForWhatsApp
    rw [hie]
    simp only [Bool.false_eq_true, if_false]
    rcases hcase with hc | hc | hc <;> rw [hc] <;> rfl
  rw [hfmt]
  refine ⟨?_, rfl, ?_⟩
  · simp [hlen]
  · simp only [List.all_cons, hdig, Bool.and_true]
    decide

/-- C6 witness: a concrete accepted phone string, formatted. -/
theorem valid_formats_to_11_digits_witness :
    isValidSriLankanMobile ("077 123 4567".toList) = true ∧
    ((formatPhoneForWhatsApp ("077 123 4567".toList)).length = 11 ∧
     (formatPhoneForWhatsApp ("077 123 4567".toList)).take 2 = ['9', '4'] ∧
     (formatPhoneForWhatsApp ("077 123 4567".toList)).all Char.isDigit = true) :=
  ⟨by decide, valid_formats_to_11_digits _ (by decide)⟩

/-- The digit-and-plus characters of the input contain at most one
plus sign, and only in leading position. -/
def plusOnlyLeading (l : List Char) : Bool :=
  if l.take 1 == ['+'] then (l.drop 1).all Char.isDigit else l.all Char.isDigit

lemma all_digit_drop {l : List Char} (n : Nat) (h : l.all Char.isDigit = true) :
    (l.drop n).all Char.isDigit = true := by
  apply List.all_eq_true.2
  intro c hc
  exact List.all_eq_true.1 h c (List.mem_of_mem_drop hc)

lemma zeroToCountry_digits {l : List Char} (h : l.all Char.isDigit = true) :
    (zeroToCountry l).all Char.isDigit = true := by
  unfold zeroToCountry
  split
  · simp only [List.all_cons, all_digit_drop 1 h, Bool.and_true]
    decide
  · exact h

/-- C2 (amended): `formatPhoneForWhatsApp` yields a digit-only string
whenever any plus sign among the kept characters is a single leading
one, and its result is empty exactly when the input is. -/
theorem format_digits_of_plus_only_leading (raw : List Char)
    (h : plusOnlyLeading (raw.filter keepDigitPlus) = true) :
    (formatPhoneForWhatsApp raw).all Char.isDigit = true ∧
    (formatPhoneForWhatsApp raw = [] ↔ raw = []) := by
  by_cases hr : raw = []
  · subst hr
    exact ⟨rfl, by simp [formatPhoneForWhatsApp]⟩
  · have hie := isEmpty_false_of_ne_nil hr
    have hnn := format_ne_nil hr
    refine ⟨?_, by simp [hnn, hr]⟩
    have hc2 : (dropLeadPlus (raw.filter keepDigitPlus)).all Char.isDigit = true := by
      unfold plusOnlyLeading at h
      unfold dropLeadPlus
      by_cases hp : ((raw.filter keepDigitPlus).take 1 == ['+']) = true
      · rw [if_pos hp] at h ⊢
        exact h
      · rw [if_neg hp] at h ⊢
        exact h
    unfold formatPhoneForWhatsApp
    rw [hie]
    simp only [Bool.false_eq_true, if_false]
    have hc3 := zeroToCountry_digits hc2
    split
    · exact hc3
    · simp only [List.all_cons, hc3, Bool.and_true]
      decide

/-- C2 counterexample: an interior plus sign survives
`formatPhoneForWhatsApp`, so the result is not digit-only. -/
theorem format_keeps_inner_plus :
    formatPhoneForWhatsApp ['7', '+', '1'] = ['9', '4', '7', '+', '1'] ∧
    (formatPhoneForWhatsApp ['7', '+', '1']).all Char.isDigit = false :=
  ⟨by decide, by decide⟩

/-- C2 witness: a concrete phone string with one leading plus. -/
theorem format_digits_witness :
    plusOnlyLeading ("+94 77-123 4567".toList.filter keepDigitPlus) = true ∧
    ((formatPhoneForWhatsApp ("+94 77-123 4567".toList)).all Char.isDigit = true ∧
     (formatPhoneForWhatsApp ("+94 77-123 4567".toList) = [] ↔
       "+94 77-123 4567".toList = [])) :=
  ⟨by decide, format_digits_of_plus_only_leading _ (by decide)⟩

/-- C4: `calculateLeadScore` follows the ordered rules of the design:
more than 100 reviews together with a rating above 4.0 is Hot;
otherwise more than 50 reviews is Warm irrespective of the rating;
otherwise Cold; an absent review count behaves exactly like 0, and an
absent rating behaves exactly like a rating of 0 (so it fails the
`> 4.0` test, as `score (some 150) none = warm` shows). -/
theorem calculateLeadScore_rules :
    calculateLeadScore (some 150) (some (9 / 2)) = .hot ∧
    calculateLeadScore (some 60) (some 3) = .warm ∧
    calculateLeadScore (some 5) (some 5) = .cold ∧
    calculateLeadScore none none = .cold ∧
    calculateLeadScore (some 60) (some 5) = .warm ∧
    calculateLeadScore (some 101) (some 4) = .warm ∧
    calculateLeadScore (some 150) none = .warm ∧
    (∀ r, calculateLeadScore none r = calculateLeadScore (some 0) r) ∧
    (∀ rc, calculateLeadScore rc none = calculateLeadScore rc (some 0)) := by
  have h40 : gtRat (some 0) 4 = false := by
    unfold gtRat
    rw [decide_eq_false_iff_not]
    norm_num
  refine ⟨?_, ?_, ?_, rfl, ?_, ?_, rfl, fun r => rfl, fun rc => ?_⟩
  · unfold calculateLeadScore gtNat gtRat
    norm_num
  · unfold calculateLeadScore gtNat gtRat
    norm_num
  · unfold calculateLeadScore gtNat gtRat
    norm_num
  · unfold calculateLeadScore gtNat gtRat
    norm_num
  · unfold calculateLeadScore gtNat gtRat
    norm_num
  · simp only [calculateLeadScore, show gtRat none 4 = false from rfl, h40]

/-- C9: `filterSuitableLeads` called with `null`, `undefined`, or any
other non-array value returns the empty list instead of raising; in
the model it is a total function, so every call yields a list. -/
theorem filterSuitableLeads_non_array :
    filterSuitableLeads PlacesArg.jsNull = [] ∧
    filterSuitableLeads PlacesArg.jsUndefined = [] ∧
    filterSuitableLeads PlacesArg.nonArray = [] :=
  ⟨rfl, rfl, rfl⟩

lemma fetchPagesLoop_append {α : Type} :
    ∀ (pre : List (PageResponse α)) (acc : List α) (tail : List (PageResponse α)),
      (∀ p ∈ pre, p.status = PageStatus.ok ∧ p.hasNextPage = true) →
      fetchPagesLoop (pre ++ tail) acc
        = fetchPagesLoop tail (acc ++ (pre.map PageResponse.results).flatten)
  | [], acc, tail, _ => by simp
  | ⟨st, rs, hnext⟩ :: pre, acc, tail, h => by
      obtain ⟨hs, hn⟩ := h ⟨st, rs, hnext⟩ (List.mem_cons_self _ _)
      subst hs
      subst hn
      simp only [List.cons_append, fetchPagesLoop, if_true, List.append_eq]
      rw [fetchPagesLoop_append pre (acc ++ rs) tail (fun p hp => h p (by simp [hp]))]
      simp [List.append_assoc]

/-- C7: in the pagination loop, after any run of OK pages with a next
page, a ZERO_RESULTS page resolves the promise with exactly the results
accumulated so far (possibly none), while a page with any status other
than OK and ZERO_RESULTS rejects the whole operation with that status
code and hands the caller no partial results. -/
theorem fetchAllPages_page_status {α : Type} (prefixPages : List (PageResponse α))
    (hpre : ∀ p ∈ prefixPages, p.status = PageStatus.ok ∧ p.hasNextPage = true) :
    (∀ (rs : List α) (hn : Bool) (rest : List (PageResponse α)),
        fetchAllPages (prefixPages ++ ⟨PageStatus.zeroResults, rs, hn⟩ :: rest)
          = FetchOutcome.resolved (prefixPages.map PageResponse.results).flatten) ∧
    (∀ (code : List Char) (rs : List α) (hn : Bool) (rest : List (PageResponse α)),
        fetchAllPages (prefixPages ++ ⟨PageStatus.other code, rs, hn⟩ :: rest)
          = FetchOutcome.rejected code) := by
  constructor
  · intro rs hn rest
    unfold fetchAllPages
    rw [fetchPagesLoop_append prefixPages [] _ hpre]
    simp [fetchPagesLoop]
  · intro code rs hn rest
    unfold fetchAllPages
    rw [fetchPagesLoop_append prefixPages [] _ hpre]
    simp [fetchPagesLoop]

/-- C7 witness: one full OK page followed by a ZERO_RESULTS page
resolves with just the first page's results. -/
theorem fetchAllPages_page_status_witness :
    fetchAllPages
        ([⟨PageStatus.ok, [1, 2], true⟩,
          ⟨PageStatus.zeroResults, [9], false⟩] : List (PageResponse Nat))
      = FetchOutcome.resolved [1, 2] := by
  have h := (fetchAllPages_page_status [⟨PageStatus.ok, [1, 2], true⟩]
      (by decide)).1 [9] false []
  simpa using h

/-- C5: the output of `filterSuitableLeads` is sorted by review count
in descending order, and the sort is stable: for every review count,
the output's records with that count are exactly the filtered-and-
enriched records with that count in their original input order. -/
theorem qualify_sorted_stable (places : List Place) :
    List.Pairwise (fun a b => ratingKey b ≤ ratingKey a)
      (filterSuitableLeads (PlacesArg.array places)) ∧
    ∀ c, (filterSuitableLeads (PlacesArg.array places)).filter
          (fun q => ratingKey q == c)
        = ((places.filter suitablePred).map enrich).filter
          (fun q => ratingKey q == c) := by
  constructor
  · exact sorted_sortByCountDesc _
  · intro c
    exact filter_sortByCountDesc c _

/-- C3: every record returned by `filterSuitableLeads` has a falsy
(absent or empty) `websiteUri`, a present review count of at least 10,
and a non-empty `formattedWhatsapp` derived by `formatPhoneForWhatsApp`
from the selected phone string, which passed
`isValidSriLankanMobile`. -/
theorem qualify_invariants (arg : PlacesArg) (q : QualifiedLead)
    (hq : q ∈ filterSuitableLeads arg) :
    truthy q.place.websiteUri = false ∧
    (∃ n, q.place.userRatingCount = some n ∧ 10 ≤ n) ∧
    q.formattedWhatsapp ≠ [] ∧
    isValidSriLankanMobile (selPhone q.place) = true ∧
    q.formattedWhatsapp = formatPhoneForWhatsApp (selPhone q.place) := by
  cases arg with
  | jsNull => simp [filterSuitableLeads] at hq
  | jsUndefined => simp [filterSuitableLeads] at hq
  | nonArray => simp [filterSuitableLeads] at hq
  | array places =>
      rw [show filterSuitableLeads (PlacesArg.array places)
            = filterSuitableLeadsList places from rfl,
        mem_filterSuitableLeadsList] at hq
      obtain ⟨p, _, hs, rfl⟩ := hq
      rw [suitablePred_iff] at hs
      obtain ⟨h10, hweb, _, hval⟩ := hs
      refine ⟨hweb, ?_, format_ne_nil (valid_ne_nil hval), hval, rfl⟩
      cases hr : p.userRatingCount with
      | none =>
          exfalso
          have h0 : ratingCountOrZero p = 0 := by
            unfold ratingCountOrZero
            rw [hr]
          omega
      | some n =>
          have h0 : ratingCountOrZero p = n := by
            unfold ratingCountOrZero
            rw [hr]
          exact ⟨n, hr, by omega⟩

def wPlaceC3 : Place :=
  { id := "w3".toList, placeId := "w3".toList, displayName := "Cafe One".toList,
    rating := none, userRatingCount := some 25,
    nationalPhoneNumber := some ("0771234567".toList),
    internationalPhoneNumber := none, websiteUri := none,
    businessStatus := some operationalStr, photos := [], types := [],
    formattedAddress := [], location := none }

def wLeadC3 : QualifiedLead := enrich wPlaceC3

/-- C3 witness: a concrete surviving record and its invariants. -/
theorem qualify_invariants_witness :
    wLeadC3 ∈ filterSuitableLeads (PlacesArg.array [wPlaceC3]) ∧
    (truthy wLeadC3.place.websiteUri = false ∧
     (∃ n, wLeadC3.place.userRatingCount = some n ∧ 10 ≤ n) ∧
     wLeadC3.formattedWhatsapp ≠ [] ∧
     isValidSriLankanMobile (selPhone wLeadC3.place) = true ∧
     wLeadC3.formattedWhatsapp = formatPhoneForWhatsApp (selPhone wLeadC3.place)) := by
  have hmem : wLeadC3 ∈ filterSuitableLeads (PlacesArg.array [wPlaceC3]) := by
    rw [show filterSuitableLeads (PlacesArg.array [wPlaceC3]) = [wLeadC3] from rfl]
    exact List.mem_singleton.2 rfl
  exact ⟨hmem, qualify_invariants _ _ hmem⟩

/-- C10: each output record of `filterSuitableLeads` carries one input
record whole and unchanged as its spread part (`q.place = p`), and the
enrichment adds exactly the two derived fields `leadScore` and
`formattedWhatsapp` computed from that record — a `QualifiedLead` has
no other fields. -/
theorem qualify_frame (places : List Place) (q : QualifiedLead)
    (hq : q ∈ filterSuitableLeads (PlacesArg.array places)) :
    ∃ p, p ∈ places ∧ q.place = p ∧
      q.leadScore = calculateLeadScore p.userRatingCount p.rating ∧
      q.formattedWhatsapp = formatPhoneForWhatsApp (selPhone p) := by
  rw [show filterSuitableLeads (PlacesArg.array places)
        = filterSuitableLeadsList places from rfl,
    mem_filterSuitableLeadsList] at hq
  obtain ⟨p, hp, _, rfl⟩ := hq
  exact ⟨p, hp, rfl, rfl, rfl⟩

def wPlaceC10 : Place :=
  { id := "w10".toList, placeId := "w10".toList, displayName := "Salon Two".toList,
    rating := none, userRatingCount := some 120,
    nationalPhoneNumber := some ("077 555 1234".toList),
    internationalPhoneNumber := none, websiteUri := none,
    businessStatus := none, photos := ["ph".toList], types := ["spa".toList],
    formattedAddress := "12 Main St".toList, location := none }

def wLeadC10 : QualifiedLead := enrich wPlaceC10

/-- C10 witness: the frame property at a concrete record. -/
theorem qualify_frame_witness :
    wLeadC10 ∈ filterSuitableLeads (PlacesArg.array [wPlaceC10]) ∧
    (∃ p, p ∈ [wPlaceC10] ∧ wLeadC10.place = p ∧
      wLeadC10.leadScore = calculateLeadScore p.userRatingCount p.rating ∧
      wLeadC10.formattedWhatsapp = formatPhoneForWhatsApp (selPhone p)) := by
  have hmem : wLeadC10 ∈ filterSuitableLeads (PlacesArg.array [wPlaceC10]) := by
    rw [show filterSuitableLeads (PlacesArg.array [wPlaceC10]) = [wLeadC10] from rfl]
    exact List.mem_singleton.2 rfl
  exact ⟨hmem, qualify_frame _ _ hmem⟩

/-- C1 (amended): the phone gate tests only the selected string — the
national number when it is non-empty, otherwise the international one —
so the fallback to the international number happens exactly when the
national string is absent or empty; such a record passing the other
gates appears in the output, normalized from the international
string. -/
theorem qualify_intl_fallback (places : List Place) (p : Place)
    (hmem : p ∈ places)
    (hrc : 10 ≤ ratingCountOrZero p)
    (hweb : truthy p.websiteUri = false)
    (hst : statusExcluded p = false)
    (hnat : strVal p.nationalPhoneNumber = [])
    (hint : isValidSriLankanMobile (strVal p.internationalPhoneNumber) = true) :
    ∃ q, q ∈ filterSuitableLeads (PlacesArg.array places) ∧ q.place = p ∧
      q.formattedWhatsapp
        = formatPhoneForWhatsApp (strVal p.internationalPhoneNumber) := by
  have hsel : selPhone p = strVal p.internationalPhoneNumber := by
    unfold selPhone
    rw [hnat]
    rfl
  have hs : suitablePred p = true :=
    suitablePred_iff.2 ⟨hrc, hweb, hst, by rw [hsel]; exact hint⟩
  refine ⟨enrich p, ?_, rfl, ?_⟩
  · rw [show filterSuitableLeads (PlacesArg.array places)
        = filterSuitableLeadsList places from rfl, mem_filterSuitableLeadsList]
    exact ⟨p, hmem, hs, rfl⟩
  · rw [show (enrich p).formattedWhatsapp
        = formatPhoneForWhatsApp (selPhone p) from rfl, hsel]

def pC1 : Place :=
  { id := "c1".toList, placeId := "c1".toList, displayName := "Bakery Three".toList,
    rating := none, userRatingCount := some 50,
    nationalPhoneNumber := some ("011 234 5678".toList),
    internationalPhoneNumber := some ("+94 77 123 4567".toList),
    websiteUri := none, businessStatus := some operationalStr,
    photos := [], types := [], formattedAddress := [], location := none }

/-- C1 counterexample: a record meeting every other gate whose
non-empty national phone fails validation while its international
phone passes is nevertheless excluded — the code never falls back to
the international string when the national one is non-empty. -/
theorem qualify_intl_masked :
    10 ≤ ratingCountOrZero pC1 ∧
    truthy pC1.websiteUri = false ∧
    statusExcluded pC1 = false ∧
    isValidSriLankanMobile (strVal pC1.nationalPhoneNumber) = false ∧
    isValidSriLankanMobile (strVal pC1.internationalPhoneNumber) = true ∧
    filterSuitableLeads (PlacesArg.array [pC1]) = [] :=
  ⟨by decide, rfl, rfl, by decide, by decide, rfl⟩

def pC1w : Place :=
  { id := "c1w".toList, placeId := "c1w".toList, displayName := "Garage Four".toList,
    rating := none, userRatingCount := some 12,
    nationalPhoneNumber := none,
    internationalPhoneNumber := some ("+94771234567".toList),
    websiteUri := none, businessStatus := none,
    photos := [], types := [], formattedAddress := [], location := none }

/-- C1 witness: a record with no national phone and a valid
international phone appears in the output. -/
theorem qualify_intl_fallback_witness :
    ∃ q, q ∈ filterSuitableLeads (PlacesArg.array [pC1w]) ∧ q.place = pC1w ∧
      q.formattedWhatsapp
        = formatPhoneForWhatsApp (strVal pC1w.internationalPhoneNumber) :=
  qualify_intl_fallback [pC1w] pC1w (List.mem_singleton.2 rfl) (by decide) rfl rfl
    rfl (by decide)

/-! ### Helper lemmas: display formatting -/

lemma exists_ten {d : List Char} (h : d.length = 10) :
    ∃ c0 c1 c2 c3 c4 c5 c6 c7 c8 c9 : Char,
      d = [c0, c1, c2, c3, c4, c5, c6, c7, c8, c9] := by
  rcases d with _ | ⟨c0, d⟩
  · simp at h
  rcases d with _ | ⟨c1, d⟩
  · simp at h
  rcases d with _ | ⟨c2, d⟩
  · simp at h
  rcases d with _ | ⟨c3, d⟩
  · simp at h
  rcases d with _ | ⟨c4, d⟩
  · simp at h
  rcases d with _ | ⟨c5, d⟩
  · simp at h
  rcases d with _ | ⟨c6, d⟩
  · simp at h
  rcases d with _ | ⟨c7, d⟩
  · simp at h
  rcases d with _ | ⟨c8, d⟩
  · simp at h
  rcases d with _ | ⟨c9, d⟩
  · simp at h
  rcases d with _ | ⟨e, d⟩
  · exact ⟨c0, c1, c2, c3, c4, c5, c6, c7, c8, c9, rfl⟩
  · simp only [List.length_cons] at h
    omega

lemma grouped_ten (c0 c1 c2 c3 c4 c5 c6 c7 c8 c9 : Char) :
    grouped [c0, c1, c2, c3, c4, c5, c6, c7, c8, c9]
      = [c0, c1, c2, ' ', c3, c4, c5, ' ', c6, c7, c8, c9] := rfl

lemma filter_all_digit (x : List Char) :
    (x.filter Char.isDigit).all Char.isDigit = true :=
  List.all_eq_true.2 (fun _ hc => (List.mem_filter.1 hc).2)

lemma display_grouped_props {d : List Char} (hlen : d.length = 10)
    (hd : d.all Char.isDigit = true) :
    (grouped d).filter Char.isDigit = d ∧ grouped d ≠ [] ∧
      groupedShape (grouped d) = true := by
  obtain ⟨c0, c1, c2, c3, c4, c5, c6, c7, c8, c9, rfl⟩ := exists_ten hlen
  simp only [List.all_cons, List.all_nil, Bool.and_eq_true, and_true] at hd
  obtain ⟨h0, h1, h2, h3, h4, h5, h6, h7, h8, h9⟩ := hd
  rw [grouped_ten]
  refine ⟨?_, by simp, ?_⟩
  · simp [List.filter_cons, h0, h1, h2, h3, h4, h5, h6, h7, h8, h9,
      show Char.isDigit ' ' = false from rfl]
  · simp [groupedShape, h0, h1, h2, h3, h4, h5, h6, h7, h8, h9]

lemma display_eval_grouped {x : List Char}
    (hlen : (x.filter Char.isDigit).length = 10)
    (h0 : (x.filter Char.isDigit).take 1 = ['0']) :
    formatPhoneForDisplay x = grouped (x.filter Char.isDigit) := by
  have hx : x ≠ [] := by
    intro h
    subst h
    simp at hlen
  unfold formatPhoneForDisplay
  rw [isEmpty_false_of_ne_nil hx]
  simp only [Bool.false_eq_true, if_false]
  rw [if_pos]
  simp [hlen, h0]

/-- C8: `formatPhoneForDisplay` is idempotent on every input string;
in particular a 10-digit local-form number is rendered in the grouped
`DDD DDD DDDD` shape, and a second application returns that same
grouped string. -/
theorem display_idempotent_and_grouped :
    (∀ x, formatPhoneForDisplay (formatPhoneForDisplay x)
        = formatPhoneForDisplay x) ∧
    (∀ x, (x.filter Char.isDigit).length = 10 →
        (x.filter Char.isDigit).take 1 = ['0'] →
        formatPhoneForDisplay x = grouped (x.filter Char.isDigit) ∧
        groupedShape (formatPhoneForDisplay x) = true) := by
  constructor
  · intro x
    by_cases hx : x = []
    · subst hx
      decide
    · have hie := isEmpty_false_of_ne_nil hx
      by_cases hcond : ((x.filter Char.isDigit).length == 10 &&
          (x.filter Char.isDigit).take 1 == ['0']) = true
      · obtain ⟨hlen, h0⟩ : (x.filter Char.isDigit).length = 10 ∧
            (x.filter Char.isDigit).take 1 = ['0'] := by
          simpa [Bool.and_eq_true] using hcond
        rw [display_eval_grouped hlen h0]
        obtain ⟨hfilter, hne, -⟩ :=
          display_grouped_props hlen (filter_all_digit x)
        unfold formatPhoneForDisplay
        rw [isEmpty_false_of_ne_nil hne]
        simp only [Bool.false_eq_true, if_false]
        rw [hfilter, if_pos hcond]
      · have hfx : formatPhoneForDisplay x = x := by
          unfold formatPhoneForDisplay
          rw [hie]
          simp only [Bool.false_eq_true, if_false]
          rw [if_neg hcond]
        rw [hfx]
        exact hfx
  · intro x hlen h0
    have hfx := display_eval_grouped hlen h0
    refine ⟨hfx, ?_⟩
    rw [hfx]
    exact (display_grouped_props hlen (filter_all_digit x)).2.2

/-- C8 witness: the grouped rendering of a concrete local number. -/
theorem display_idempotent_and_grouped_witness :
    ("0771234567".toList.filter Char.isDigit).length = 10 ∧
    ("0771234567".toList.filter Char.isDigit).take 1 = ['0'] ∧
    (formatPhoneForDisplay ("0771234567".toList)
        = grouped ("0771234567".toList.filter Char.isDigit) ∧
     groupedShape (formatPhoneForDisplay ("0771234567".toList)) = true) :=
  ⟨by decide, by decide,
    display_idempotent_and_grouped.2 _ (by decide) (by decide)⟩
